import Mathlib

/-!
# Verification of `mercurial-hug` (`hug.py`)

A shallow embedding of the wrapper library `hug.py` from the `mercurial-hug`
repository, together with proofs about the wrapper's behaviour.

The wrapper delegates all repository work to the Mercurial engine.  The engine
itself is out of scope (the spec says so explicitly), so it is modelled by a
small explicit state (`EngineState`): the set of tracked files, the files
present in the working directory, and the four pending-change sets that
`repo.status()` reports.  Everything the wrapper itself does — path
resolution, validation, parsing, defaulting — is translated directly from
the Python source.

Python string and path primitives (`str.split`, `str.replace`, `str.strip`,
slicing, `os.path.isabs`, `os.path.join`, `os.path.normpath`,
`os.path.abspath` for POSIX) are re-implemented on `List Char` with
structural recursion so that every definition evaluates by `decide`/`rfl`.
-/

deriving instance DecidableEq for Except

namespace MercurialHug

/-! ## Python string primitives -/

/-- Python `s.startswith(pre)`. -/
def startswith (s pre : String) : Bool :=
  pre.data.isPrefixOf s.data

/-- Python `s[n:]` (drop the first `n` characters). -/
def pyDrop (s : String) (n : Nat) : String :=
  String.mk (s.data.drop n)

/-- The characters Python's `str.strip()` removes by default
(ASCII whitespace; the rare unicode space characters are not modelled). -/
def pySpace (c : Char) : Bool :=
  (c == ' ') || (c == '\t') || (c == '\n') || (c == '\r') ||
  (c == '\x0b') || (c == '\x0c')

/-- Python `s.strip()`. -/
def pyStrip (s : String) : String :=
  String.mk (((s.data.dropWhile pySpace).reverse.dropWhile pySpace).reverse)

/-- Helper for `pySplit`: scans the character list left to right, cutting at
each non-overlapping occurrence of `sep`.  The `fuel` argument (instantiated
with the length of the input) only makes the recursion structural; every
step consumes at least one character, so the fuel never runs out. -/
def splitAux (sep : List Char) : Nat → List Char → List Char → List (List Char)
  | 0, l, acc => [acc.reverse ++ l]
  | _ + 1, [], acc => [acc.reverse]
  | fuel + 1, c :: rest, acc =>
    if sep.isPrefixOf (c :: rest) then
      acc.reverse :: splitAux sep fuel (List.drop (sep.length - 1) rest) []
    else
      splitAux sep fuel rest (c :: acc)

/-- Python `s.split(sep)` for a non-empty separator:
splits at every non-overlapping occurrence, left to right. -/
def pySplit (s sep : String) : List String :=
  (splitAux sep.data s.data.length s.data []).map String.mk

/-- Helper for `pyReplace`; same fuel pattern as `splitAux`. -/
def replaceAux (pat rep : List Char) : Nat → List Char → List Char
  | 0, l => l
  | _ + 1, [] => []
  | fuel + 1, c :: rest =>
    if pat.isPrefixOf (c :: rest) then
      rep ++ replaceAux pat rep fuel (List.drop (pat.length - 1) rest)
    else
      c :: replaceAux pat rep fuel rest

/-- Python `s.replace(pat, rep)` for a non-empty pattern: replaces every
non-overlapping occurrence, left to right.  (Python treats an empty pattern
specially; the wrapper never uses one, so that case just returns `s`.) -/
def pyReplace (s pat rep : String) : String :=
  if pat = "" then s
  else String.mk (replaceAux pat.data rep.data s.data.length s.data)

/-- Python `''.join(l)`. -/
def joinAll : List String → String
  | [] => ""
  | s :: rest => s ++ joinAll rest

/-- Python `sep.join(l)`. -/
def joinSep (sep : String) : List String → String
  | [] => ""
  | [s] => s
  | s :: s' :: rest => s ++ sep ++ joinSep sep (s' :: rest)

/-! ## POSIX path primitives (`os.path`) -/

/-- Python `os.path.isabs` on POSIX: `s.startswith('/')`. -/
def isabs (p : String) : Bool :=
  p.data.head? == some '/'

/-- Python `os.path.join(a, b)` on POSIX. -/
def joinPath (a b : String) : String :=
  if isabs b then b
  else if a = "" ∨ a.data.getLast? = some '/' then a ++ b
  else a ++ "/" ++ b

/-- The component loop of Python `os.path.normpath` (POSIX), with the
accumulator kept in reverse order (`acc.head?` is Python's
`new_comps[-1]`). -/
def normComps (rooted : Bool) : List String → List String → List String
  | [], acc => acc.reverse
  | comp :: rest, acc =>
    if comp = "" ∨ comp = "." then normComps rooted rest acc
    else if comp ≠ ".." ∨ (rooted = false ∧ acc = []) ∨ acc.head? = some ".." then
      normComps rooted rest (comp :: acc)
    else if acc ≠ [] then normComps rooted rest acc.tail
    else normComps rooted rest acc

/-- Python `os.path.normpath` on POSIX. -/
def normpath (p : String) : String :=
  if p = "" then "."
  else
    let slashes : Nat :=
      if isabs p then
        (if startswith p "//" ∧ ¬ startswith p "///" then 2 else 1)
      else 0
    let comps := normComps (slashes ≠ 0) (pySplit p "/") []
    let res := String.mk (List.replicate slashes '/' ++ (joinSep "/" comps).data)
    if res = "" then "." else res

/-- Python `os.path.abspath` on POSIX, with the working directory passed
explicitly: `normpath(join(cwd, p))` (`join` returns `p` unchanged when `p`
is already absolute). -/
def abspath (cwd p : String) : String :=
  normpath (joinPath cwd p)

/-! ## Error values and fixed strings (`hug.py` lines 36–47) -/

/-- The two exception kinds the wrapper raises: `mercurial.error.RepoError`
(from `__init__`) and Python `RuntimeError` (from `add`, `commit`,
`summary`, `update`), each carrying its message. -/
inductive HugError where
  | repoError (msg : String)
  | runtimeError (msg : String)
deriving Repr, DecidableEq

def REPO_DIR_NOT_EXIST : String := "Repository path does not exist or is a file"

def CANNOT_UNSAFE_INIT : String := "Cannot safely initialize repository directory"

/-- `_FILE_NOT_IN_REPO_DIR.format(path)`. -/
def FILE_NOT_IN_REPO_DIR (p : String) : String :=
  "Cannot add file outside repository: " ++ p

def NOTHING_TO_COMMIT : String := "There are no changes to commit"

def MISSING_SUMMARY_FIELDS : String :=
  "Expected at least \"parent\" and \"message\"; repository may be corrupted."

def UNKNOWN_REVISION : String := "Unknown revision; could not run \"update.\""

def DEFAULT_COMMIT_MESSAGE : String := "(empty commit message)"

def DEFAULT_USERNAME : String := "(unknown user)"

/-! ## The engine model

The Mercurial engine is external to this repository and out of the spec's
scope, so it is modelled by the minimal explicit state the wrapper observes:
`tracked`/`present` determine `repo.status(unknown=True).unknown`, and the
four pending-change sets are what `repo.status()` reports to `commit`.
All file names on the engine side are repository-relative, exactly as the
comment on line 128 of `hug.py` records. -/

structure EngineState where
  /-- Files the repository tracks (committed or staged). -/
  tracked : List String
  /-- Files present in the working directory. -/
  present : List String
  /-- `repo.status().added`. -/
  added : List String
  /-- `repo.status().deleted`. -/
  deleted : List String
  /-- `repo.status().modified`. -/
  modified : List String
  /-- `repo.status().removed`. -/
  removed : List String
deriving Repr, DecidableEq

/-- `repo.status(unknown=True).unknown`: the files present in the working
directory that the repository does not track (repository-relative names). -/
def unknownsOf (e : EngineState) : List String :=
  e.present.filter (fun f => decide (f ∉ e.tracked))

/-- The repository handle (`Hug` instance): the absolute repository path
fixed on line 84, the optional username override `self._username`, the
identity the ui session would report (`self._ui.username()`, `none` when it
raises `error.Abort`), and the engine state. -/
structure Hug where
  repoDir : String
  username : Option String
  identity : Option String
  engine : EngineState
deriving Repr, DecidableEq

/-! ## Construction (`Hug.__init__`, lines 78–95) -/

/-- What `__init__` observes about the directory at the (resolved)
repository path. -/
structure DirState where
  /-- `os.path.exists(repo_dir)`. -/
  pathExists : Bool
  /-- `os.path.isdir(repo_dir)`. -/
  isDir : Bool
  /-- Whether `hg.repository(ui, repo_dir)` succeeds (a repository already
  exists there). -/
  isRepo : Bool
  /-- `len(os.listdir(repo_dir))`. -/
  entryCount : Nat
deriving Repr, DecidableEq

/-- Outcome of construction: the result (`ok` carries the handle's
`repo_dir`), plus whether `commands.init` ran (i.e. whether on-disk
repository metadata was created). -/
structure ConstructOutcome where
  result : Except HugError String
  ranInit : Bool
deriving Repr, DecidableEq

/-- Shallow embedding of `Hug.__init__` (lines 78–95): resolve the path with
`os.path.abspath`, fail with `RepoError(_REPO_DIR_NOT_EXIST)` unless the path
exists and is a directory, try to open the repository, and on failure either
refuse (`safe` and a non-empty directory) or initialize and re-open. -/
def hugConstruct (cwd : String) (d : DirState) (repoDirArg : String) (safe : Bool) :
    ConstructOutcome :=
  let repoDir := abspath cwd repoDirArg
  if ¬ (d.pathExists = true ∧ d.isDir = true) then
    ⟨.error (.repoError REPO_DIR_NOT_EXIST), false⟩
  else if d.isRepo then
    ⟨.ok repoDir, false⟩
  else if safe = true ∧ d.entryCount > 0 then
    ⟨.error (.repoError CANNOT_UNSAFE_INIT), false⟩
  else
    ⟨.ok repoDir, true⟩

/-! ## Staging (`Hug.add`, lines 112–147) -/

/-- Lines 133–137: an absolute pathname is kept as given; a relative one
becomes `os.path.abspath(os.path.join(repo_dir, each_path))`. -/
def resolveOne (cwd repoDir p : String) : String :=
  if isabs p then p else abspath cwd (joinPath repoDir p)

/-- Line 144: `each_path.replace(repo_dir, '')[1:]` — note that `replace`
removes every occurrence of `repo_dir`, not just the leading one. -/
def relToRepo (repoDir p : String) : String :=
  pyDrop (pyReplace p repoDir "") 1

/-- The engine's own relativization of an absolute path when
`commands.add(ui, repo, path)` records it: the path with the leading
`repo_dir + '/'` removed. -/
def engineRel (repoDir p : String) : String :=
  pyDrop p (repoDir.data.length + 1)

/-- Append-if-absent, used to model the engine growing a file set. -/
def insertUniq (l : List String) (x : String) : List String :=
  if x ∈ l then l else l ++ [x]

/-- Models `commands.add(ui, repo, path)`: the file becomes tracked and its
status becomes `added`. -/
def commandsAdd (repoDir p : String) (e : EngineState) : EngineState :=
  { e with
    tracked := insertUniq e.tracked (engineRel repoDir p)
    added := insertUniq e.added (engineRel repoDir p) }

/-- Lines 143–147: for each (already validated) absolute path, call
`commands.add` only when its `relToRepo` name is in the `unknown` list that
was computed before the loop. -/
def stageLoop (repoDir : String) (unk : List String) :
    List String → EngineState → EngineState
  | [], e => e
  | p :: rest, e =>
    if relToRepo repoDir p ∈ unk then
      stageLoop repoDir unk rest (commandsAdd repoDir p e)
    else
      stageLoop repoDir unk rest e

/-- Shallow embedding of `Hug.add` (lines 112–147): read the unknown list,
resolve every pathname to an absolute path, raise
`RuntimeError(_FILE_NOT_IN_REPO_DIR.format(path))` at the first resolved
path that fails `startswith(repo_dir)`, and only if every path passed run
the staging loop. -/
def hugAdd (cwd : String) (h : Hug) (pathnames : List String) : Except HugError Hug :=
  let repoDir := h.repoDir
  let unk := unknownsOf h.engine
  let absPaths := pathnames.map (resolveOne cwd repoDir)
  match absPaths.find? (fun p => ! startswith p repoDir) with
  | some bad => .error (.runtimeError (FILE_NOT_IN_REPO_DIR bad))
  | none => .ok { h with engine := stageLoop repoDir unk absPaths h.engine }

/-! ## Username resolution (`Hug._get_username` etc., lines 174–200) -/

/-- Python truthiness of `self._username` on line 176: `None` and the empty
string are falsy. -/
def pyTruthy : Option String → Bool
  | none => false
  | some s => decide (s ≠ "")

/-- Shallow embedding of `Hug._get_username` (lines 174–182): the override
if it is truthy, else `ui.username()`, else (when the ui raises
`error.Abort`) the fixed default. -/
def getUsername (override identity : Option String) : String :=
  if pyTruthy override then override.getD ""
  else
    match identity with
    | some u => u
    | none => DEFAULT_USERNAME

/-- `Hug._set_username` (lines 184–186). -/
def setUsername (h : Hug) (u : String) : Hug :=
  { h with username := some u }

/-- `Hug._del_username` (lines 188–190). -/
def delUsername (h : Hug) : Hug :=
  { h with username := none }

/-! ## Commit (`Hug.commit`, lines 149–172) -/

/-- The arguments of the single `commands.commit` call on line 172. -/
structure CommitRecord where
  message : String
  user : String
  date : Option String
deriving Repr, DecidableEq

/-- Models the engine's side of `commands.commit`: the pending-change sets
become empty (the changes are now in history); tracked and present files are
unchanged. -/
def engineCommit (e : EngineState) : EngineState :=
  { e with added := [], deleted := [], modified := [], removed := [] }

/-- Shallow embedding of `Hug.commit` (lines 149–172): read the status,
raise `RuntimeError(_NOTHING_TO_COMMIT)` when the four pending sets are all
empty (in which case `commands.commit` is never called), otherwise commit
with the defaulted message and the resolved username. -/
def hugCommitOp (h : Hug) (message date : Option String) :
    Except HugError (Hug × CommitRecord) :=
  let stat := h.engine
  if stat.added.length + stat.deleted.length + stat.modified.length +
      stat.removed.length = 0 then
    .error (.runtimeError NOTHING_TO_COMMIT)
  else
    .ok ({ h with engine := engineCommit h.engine },
      { message := message.getD DEFAULT_COMMIT_MESSAGE
        user := getUsername h.username h.identity
        date := date })

/-! ## Summary (`Hug.summary`, lines 202–249)

The dictionary `post` is modelled as an insertion-ordered association list
with `dictInsert` mirroring Python dict assignment (update in place when the
key exists, else append). -/

def dictInsert : List (String × String) → String → String → List (String × String)
  | [], k, v => [(k, v)]
  | kv :: rest, k, v =>
    if kv.1 = k then (k, v) :: rest else kv :: dictInsert rest k v

def dictGet : List (String × String) → String → Option String
  | [], _ => none
  | kv :: rest, k => if kv.1 = k then some kv.2 else dictGet rest k

/-- Lines 244–247: each non-empty remaining line is split on *every*
occurrence of `': '`; the first piece keys the entry and the remaining
pieces are joined with `''.join`. -/
def parseFields : List String → List (String × String) → List (String × String)
  | [], post => post
  | field :: rest, post =>
    if field ≠ "" then
      parseFields rest
        (dictInsert post ((pySplit field ": ").headD "")
          (joinAll ((pySplit field ": ").drop 1)))
    else
      parseFields rest post

/-- Shallow embedding of `Hug.summary` (lines 202–249), taking the captured
engine output as input: split on newlines, raise
`RuntimeError(_MISSING_SUMMARY_FIELDS)` when fewer than two pieces result,
otherwise build the dictionary from `summary[0][8:].strip()`,
`summary[1].strip()` and the remaining lines. -/
def hugSummary (output : String) : Except HugError (List (String × String)) :=
  let lines := pySplit output "\n"
  if lines.length < 2 then .error (.runtimeError MISSING_SUMMARY_FIELDS)
  else
    let post := dictInsert [] "parent" (pyStrip (pyDrop (lines.headD "") 8))
    let post := dictInsert post "message" (pyStrip (lines.getD 1 ""))
    .ok (parseFields (lines.drop 2) post)

/-! ## Update (`Hug.update`, lines 251–275) -/

/-- Shallow embedding of `Hug.update`: when the requested revision does not
resolve the engine raises `RepoLookupError`, which the wrapper converts to
`RuntimeError(_UNKNOWN_REVISION)`; otherwise the engine replaces the working
directory contents (modelled by the new `present` list). -/
def hugUpdate (h : Hug) (revResolves : Bool) (newPresent : List String) :
    Except HugError Hug :=
  if revResolves then .ok { h with engine := { h.engine with present := newPresent } }
  else .error (.runtimeError UNKNOWN_REVISION)

/-! ## Spec-side notions used to state the claims -/

/-- The spec's notion of a path lying under the repository root: it is the
root itself or sits inside the root directory. -/
def liesUnder (root p : String) : Bool :=
  decide (p = root) || startswith p (root ++ "/")

/-- Split on the *first* occurrence of a separator (what the claim about
`summary` asserts for the remaining lines): the part before the first
occurrence and the untouched remainder after it. -/
def splitFirst (s sep : String) : String × String :=
  match pySplit s sep with
  | [] => (s, "")
  | k :: rest => (k, joinSep sep rest)

/-- The remaining-line loop exactly as the claim about `summary` words it:
each non-empty line is split on the first `': '` into a key and a value. -/
def claimFields : List String → List (String × String) → List (String × String)
  | [], post => post
  | field :: rest, post =>
    if field ≠ "" then
      claimFields rest
        (dictInsert post (splitFirst field ": ").1 (splitFirst field ": ").2)
    else
      claimFields rest post

/-- The parser described by the claim about `summary`, word for word: key
`parent` gets the first line's remainder after the fixed-width label (no
trimming is mentioned for it), key `message` gets the second line trimmed,
and every subsequent non-empty line is split on the first `': '`. -/
def claimSummary (output : String) : Except HugError (List (String × String)) :=
  let lines := pySplit output "\n"
  if lines.length < 2 then .error (.runtimeError MISSING_SUMMARY_FIELDS)
  else
    let post := dictInsert [] "parent" (pyDrop (lines.headD "") 8)
    let post := dictInsert post "message" (pyStrip (lines.getD 1 ""))
    .ok (claimFields (lines.drop 2) post)

/-! ## Helper lemmas -/

theorem strDataAppend (a b : String) : (a ++ b).data = a.data ++ b.data := by
  cases a; cases b; rfl

theorem strAppendEmpty (s : String) : s ++ "" = s := by
  cases s with
  | mk d =>
    show String.mk (d ++ []) = String.mk d
    rw [List.append_nil]

theorem strEqEmptyIff (s : String) : s = "" ↔ s.data = [] := by
  cases s with
  | mk d => simp [String.ext_iff]

theorem splitAux_ne_nil (sep : List Char) (fuel : Nat) (l acc : List Char) :
    splitAux sep fuel l acc ≠ [] := by
  induction fuel generalizing l acc with
  | zero => simp [splitAux]
  | succ n ih =>
    cases l with
    | nil => simp [splitAux]
    | cons c rest =>
      simp only [splitAux]
      split
      · simp
      · exact ih rest (c :: acc)

theorem pySplit_ne_nil (s sep : String) : pySplit s sep ≠ [] := by
  unfold pySplit
  intro hcon
  exact splitAux_ne_nil sep.data s.data.length s.data [] (List.map_eq_nil_iff.mp hcon)

theorem dictGet_insert (d : List (String × String)) (k v k' : String) :
    dictGet (dictInsert d k v) k' = if k' = k then some v else dictGet d k' := by
  induction d with
  | nil =>
    by_cases hk : k' = k
    · subst hk; simp [dictInsert, dictGet]
    · have hk' : ¬ (k = k') := fun hcon => hk hcon.symm
      simp [dictInsert, dictGet, hk, hk']
  | cons kv rest ih =>
    by_cases h1 : kv.1 = k
    · by_cases hk : k' = k
      · subst hk; simp [dictInsert, dictGet, h1]
      · have hk' : ¬ (k = k') := fun hcon => hk hcon.symm
        simp [dictInsert, dictGet, h1, hk, hk']
    · by_cases h2 : kv.1 = k'
      · have hk : ¬ (k' = k) := fun hcon => h1 (hcon ▸ h2)
        simp [dictInsert, dictGet, h1, h2, hk]
      · simp [dictInsert, dictGet, h1, h2, ih]

theorem dictGet_parseFields_isSome (fields : List String) (post : List (String × String))
    (k : String) (hk : (dictGet post k).isSome = true) :
    (dictGet (parseFields fields post) k).isSome = true := by
  induction fields generalizing post with
  | nil => simpa [parseFields] using hk
  | cons f rest ih =>
    by_cases hf : f = ""
    · simp only [parseFields, hf]
      exact ih post (by simpa using hk)
    · simp only [parseFields, if_pos hf]
      apply ih
      rw [dictGet_insert]
      split
      · simp
      · exact hk

/-! Lemmas about the staging loop of `Hug.add`. -/

theorem mem_insertUniq_self (l : List String) (x : String) : x ∈ insertUniq l x := by
  unfold insertUniq
  split
  · assumption
  · exact List.mem_append_right l (List.mem_singleton.mpr rfl)

theorem mem_insertUniq_of (l : List String) (x y : String) (hy : y ∈ l) :
    y ∈ insertUniq l x := by
  unfold insertUniq
  split
  · exact hy
  · exact List.mem_append_left _ hy

theorem insertUniq_of_mem (l : List String) (x : String) (hx : x ∈ l) :
    insertUniq l x = l := by
  unfold insertUniq
  exact if_pos hx

theorem stageLoop_present (rd : String) (unk ps : List String) (e : EngineState) :
    (stageLoop rd unk ps e).present = e.present := by
  induction ps generalizing e with
  | nil => rfl
  | cons p rest ih =>
    unfold stageLoop
    split
    · rw [ih]; rfl
    · exact ih e

theorem stageLoop_tracked_mono (rd : String) (unk ps : List String) (e : EngineState)
    (x : String) (hx : x ∈ e.tracked) : x ∈ (stageLoop rd unk ps e).tracked := by
  induction ps generalizing e with
  | nil => exact hx
  | cons p rest ih =>
    unfold stageLoop
    split
    · exact ih _ (mem_insertUniq_of _ _ _ hx)
    · exact ih _ hx

theorem stageLoop_added_mono (rd : String) (unk ps : List String) (e : EngineState)
    (x : String) (hx : x ∈ e.added) : x ∈ (stageLoop rd unk ps e).added := by
  induction ps generalizing e with
  | nil => exact hx
  | cons p rest ih =>
    unfold stageLoop
    split
    · exact ih _ (mem_insertUniq_of _ _ _ hx)
    · exact ih _ hx

theorem stageLoop_staged (rd : String) (unk ps : List String) (e : EngineState)
    (p : String) (hp : p ∈ ps) (hu : relToRepo rd p ∈ unk) :
    engineRel rd p ∈ (stageLoop rd unk ps e).tracked ∧
      engineRel rd p ∈ (stageLoop rd unk ps e).added := by
  induction ps generalizing e with
  | nil => cases hp
  | cons q rest ih =>
    rcases List.mem_cons.mp hp with rfl | hp'
    · unfold stageLoop
      rw [if_pos hu]
      exact ⟨stageLoop_tracked_mono _ _ _ _ _ (mem_insertUniq_self _ _),
        stageLoop_added_mono _ _ _ _ _ (mem_insertUniq_self _ _)⟩
    · unfold stageLoop
      split
      · exact ih _ hp'
      · exact ih _ hp'

theorem stageLoop_noop (rd : String) (unk ps : List String) (e : EngineState)
    (hall : ∀ p ∈ ps, relToRepo rd p ∈ unk →
      engineRel rd p ∈ e.tracked ∧ engineRel rd p ∈ e.added) :
    stageLoop rd unk ps e = e := by
  induction ps generalizing e with
  | nil => rfl
  | cons q rest ih =>
    unfold stageLoop
    split
    · rename_i hq
      obtain ⟨ht, ha⟩ := hall q (List.mem_cons_self q rest) hq
      have hca : commandsAdd rd q e = e := by
        unfold commandsAdd
        rw [insertUniq_of_mem _ _ ht, insertUniq_of_mem _ _ ha]
      rw [hca]
      exact ih e (fun p hp hu => hall p (List.mem_cons_of_mem q hp) hu)
    · exact ih e (fun p hp hu => hall p (List.mem_cons_of_mem q hp) hu)

/-! Lemmas about `normpath`/`abspath` producing absolute paths. -/

theorem isabs_true_iff (p : String) : isabs p = true ↔ p.data.head? = some '/' := by
  simp [isabs]

theorem isabs_append_left (a b : String) (ha : isabs a = true) : isabs (a ++ b) = true := by
  rw [isabs_true_iff] at ha ⊢
  rw [strDataAppend]
  cases hd : a.data with
  | nil => rw [hd] at ha; simp at ha
  | cons c t =>
    rw [hd] at ha
    simp at ha
    simp [ha]

theorem isabs_normpath (p : String) (hp : isabs p = true) : isabs (normpath p) = true := by
  have hpne : p ≠ "" := by
    intro hcon
    rw [hcon] at hp
    exact absurd hp (by decide)
  have key : ∀ (n : Nat) (l : List Char), 0 < n →
      String.mk (List.replicate n '/' ++ l) ≠ "" ∧
        isabs (String.mk (List.replicate n '/' ++ l)) = true := by
    intro n l hn
    cases n with
    | zero => omega
    | succ m =>
      constructor
      · intro hcon
        rw [strEqEmptyIff] at hcon
        simp [List.replicate_succ] at hcon
      · simp [isabs, List.replicate_succ]
  have hsl : ∃ n : Nat, 0 < n ∧
      (if startswith p "//" ∧ ¬ startswith p "///" then 2 else 1 : Nat) = n :=
    ⟨_, by split <;> omega, rfl⟩
  obtain ⟨n, hn, hneq⟩ := hsl
  simp only [normpath, if_neg hpne, hp, if_true, hneq]
  rw [if_neg (key n _ hn).1]
  exact (key n _ hn).2

theorem isabs_abspath (cwd p : String) (hc : isabs cwd = true) :
    isabs (abspath cwd p) = true := by
  unfold abspath
  apply isabs_normpath
  unfold joinPath
  by_cases hb : isabs p
  · simp [hb]
  · rw [if_neg (by simpa using hb)]
    split
    · exact isabs_append_left _ _ hc
    · exact isabs_append_left _ _ (isabs_append_left _ _ hc)

/-! ## Claim theorems -/

/-- Claim C1 (code bug evidence). The claim — and the docstring of
`Hug.add` — says that a resolved path that does not lie under the repository
root makes the operation fail with `PathOutsideRepository`.  The code
validates with the string test `each_path.startswith(repo_dir)` (line 140),
which also accepts paths in *sibling* directories whose name merely extends
the root's name: with repository root `/repo`, the absolute path
`/repofake` does not lie under the root, yet `add` raises nothing and
silently stages nothing. -/
theorem add_outside_root_silently_accepted :
    liesUnder "/repo" "/repofake" = false ∧
    hugAdd "/cwd" ⟨"/repo", none, none, ⟨[], ["fake"], [], [], [], []⟩⟩ ["/repofake"] =
      .ok ⟨"/repo", none, none, ⟨[], ["fake"], [], [], [], []⟩⟩ :=
  ⟨by decide, by decide⟩

/-- Claim C4. `commit` fails with `NothingToCommit` exactly when the four
status sets (added, deleted, modified, removed) are all empty; since the
error is returned before the `commands.commit` call is reached, no commit
is created in that case (the `ok` constructor is the only one carrying a
`CommitRecord`). -/
theorem commit_nothing_iff_status_empty (h : Hug) (m d : Option String) :
    hugCommitOp h m d = .error (.runtimeError NOTHING_TO_COMMIT) ↔
      h.engine.added = [] ∧ h.engine.deleted = [] ∧ h.engine.modified = [] ∧
        h.engine.removed = [] := by
  have hiff : (h.engine.added.length + h.engine.deleted.length +
      h.engine.modified.length + h.engine.removed.length = 0) ↔
      (h.engine.added = [] ∧ h.engine.deleted = [] ∧ h.engine.modified = [] ∧
        h.engine.removed = []) := by
    constructor
    · intro h0
      exact ⟨List.length_eq_zero.mp (by omega), List.length_eq_zero.mp (by omega),
        List.length_eq_zero.mp (by omega), List.length_eq_zero.mp (by omega)⟩
    · rintro ⟨ha, hd, hm, hr⟩
      simp [ha, hd, hm, hr]
  simp only [hugCommitOp]
  split
  · rename_i hc
    simpa using hiff.mp hc
  · rename_i hc
    constructor
    · intro hcon
      simp at hcon
    · intro hemp
      exact absurd (hiff.mpr hemp) hc

/-- Concrete instance of claim C4: an engine state with nothing pending
makes `commit` fail with `NothingToCommit`. -/
theorem commit_nothing_iff_status_empty_witness :
    hugCommitOp ⟨"/r", none, none, ⟨["f"], ["f"], [], [], [], []⟩⟩ none none =
      .error (.runtimeError NOTHING_TO_COMMIT) :=
  (commit_nothing_iff_status_empty ⟨"/r", none, none, ⟨["f"], ["f"], [], [], [], []⟩⟩
      none none).mpr ⟨rfl, rfl, rfl, rfl⟩

/-- Claim C5 counterexample. As stated, the claim says the explicitly set
override is used whenever one is set.  Setting the override to the empty
string is setting one, yet `_get_username`'s truthiness test (line 176)
skips it: with the override set to `""` and the engine identity `"alice"`,
the resolved author is `"alice"`, not the override. -/
theorem username_override_empty_cex :
    getUsername (some "") (some "alice") = "alice" ∧ "alice" ≠ "" :=
  ⟨rfl, by decide⟩

/-- Claim C5 as amended: the author name is the override when it is set to a
non-empty string; otherwise (unset, or set to the empty string) it is the
engine's configured identity when the engine produces one, and the fixed
placeholder `(unknown user)` when it does not. -/
theorem username_resolution_order (override ident : Option String) :
    (∀ u, override = some u → u ≠ "" → getUsername override ident = u) ∧
    ((override = none ∨ override = some "") →
      ((∀ u, ident = some u → getUsername override ident = u) ∧
        (ident = none → getUsername override ident = DEFAULT_USERNAME))) := by
  constructor
  · rintro u rfl hu
    simp [getUsername, pyTruthy, hu]
  · rintro (rfl | rfl)
    · exact ⟨fun u hu => by simp [getUsername, pyTruthy, hu],
        fun hn => by simp [getUsername, pyTruthy, hn]⟩
    · exact ⟨fun u hu => by simp [getUsername, pyTruthy, hu],
        fun hn => by simp [getUsername, pyTruthy, hn]⟩

/-- Concrete instances of the amended claim C5: each branch of the
resolution order at a concrete input. -/
theorem username_resolution_order_witness :
    getUsername (some "bob") (some "alice") = "bob" ∧
    getUsername none (some "alice") = "alice" ∧
    getUsername none none = DEFAULT_USERNAME :=
  ⟨(username_resolution_order (some "bob") (some "alice")).1 "bob" rfl (by decide),
    ((username_resolution_order none (some "alice")).2 (Or.inl rfl)).1 "alice" rfl,
    ((username_resolution_order none none).2 (Or.inl rfl)).2 rfl⟩

/-- Claim C10. Setting the username override to the empty string behaves
exactly as if no override were set: reading the username gives the same
result, and so does committing — the only operation that consumes the
username — as measured by the `commands.commit` call it issues (the
handles themselves still differ in the stored override field, which the
claim does not speak about). -/
theorem username_empty_override_is_unset (ident : Option String) (h : Hug)
    (m d : Option String) :
    getUsername (some "") ident = getUsername none ident ∧
    (hugCommitOp { h with username := some "" } m d).map (fun r => r.2) =
      (hugCommitOp { h with username := none } m d).map (fun r => r.2) :=
  ⟨rfl, by
    simp only [hugCommitOp, getUsername, pyTruthy]
    split <;> simp [Except.map]⟩

/-- Claim C6. Constructing over an existing directory that is not already a
repository: with `safe` and a non-empty directory it fails with
`UnsafeInit` before `commands.init` runs (no metadata is created);
otherwise (`safe` unset, or the directory empty) it initializes a new
repository there and opens it, returning the resolved path. -/
theorem construct_safe_nonempty_fails (cwd : String) (d : DirState) (arg : String)
    (safe : Bool) (hex : d.pathExists = true) (hdir : d.isDir = true)
    (hrepo : d.isRepo = false) :
    (safe = true ∧ 0 < d.entryCount →
      hugConstruct cwd d arg safe = ⟨.error (.repoError CANNOT_UNSAFE_INIT), false⟩) ∧
    (safe = false ∨ d.entryCount = 0 →
      hugConstruct cwd d arg safe = ⟨.ok (abspath cwd arg), true⟩) := by
  constructor
  · rintro ⟨hs, hn⟩
    simp [hugConstruct, hex, hdir, hrepo, hs, hn, Nat.pos_iff_ne_zero.mp hn]
  · rintro (hs | hn)
    · simp [hugConstruct, hex, hdir, hrepo, hs]
    · simp [hugConstruct, hex, hdir, hrepo, hn]

/-- Concrete instances of claim C6: over a non-empty non-repository
directory, `safe` construction fails without creating metadata and unsafe
construction initializes. -/
theorem construct_safe_nonempty_fails_witness :
    hugConstruct "/c" ⟨true, true, false, 3⟩ "r" true =
      ⟨.error (.repoError CANNOT_UNSAFE_INIT), false⟩ ∧
    hugConstruct "/c" ⟨true, true, false, 3⟩ "r" false =
      ⟨.ok (abspath "/c" "r"), true⟩ :=
  ⟨(construct_safe_nonempty_fails "/c" ⟨true, true, false, 3⟩ "r" true rfl rfl rfl).1
      ⟨rfl, by decide⟩,
    (construct_safe_nonempty_fails "/c" ⟨true, true, false, 3⟩ "r" false rfl rfl rfl).2
      (Or.inl rfl)⟩

/-- Claim C7. When the (resolved) path does not exist or is not a
directory, construction fails with `InvalidRepository`
(`RepoError(_REPO_DIR_NOT_EXIST)`); the error is raised before any open or
initialize attempt, so no repository is opened and `commands.init` never
runs. -/
theorem construct_invalid_path_fails (cwd : String) (d : DirState) (arg : String)
    (safe : Bool) (hbad : d.pathExists = false ∨ d.isDir = false) :
    hugConstruct cwd d arg safe = ⟨.error (.repoError REPO_DIR_NOT_EXIST), false⟩ := by
  rcases hbad with hb | hb <;> simp [hugConstruct, hb]

/-- Concrete instances of claim C7: a nonexistent path, and an existing
path that is a regular file. -/
theorem construct_invalid_path_fails_witness :
    hugConstruct "/c" ⟨false, false, false, 0⟩ "gone" false =
      ⟨.error (.repoError REPO_DIR_NOT_EXIST), false⟩ ∧
    hugConstruct "/c" ⟨true, false, false, 0⟩ "file.txt" true =
      ⟨.error (.repoError REPO_DIR_NOT_EXIST), false⟩ :=
  ⟨construct_invalid_path_fails "/c" ⟨false, false, false, 0⟩ "gone" false (Or.inl rfl),
    construct_invalid_path_fails "/c" ⟨true, false, false, 0⟩ "file.txt" true (Or.inr rfl)⟩

/-- Claim C3. `summary` fails with `CorruptRepository`
(`RuntimeError(_MISSING_SUMMARY_FIELDS)`) exactly when splitting the
engine's captured output on newlines yields fewer than two pieces; with at
least two pieces it returns a dictionary that contains the keys `parent`
and `message`. -/
theorem summary_corrupt_iff_fewer_than_two_lines (output : String) :
    (hugSummary output = .error (.runtimeError MISSING_SUMMARY_FIELDS) ↔
      (pySplit output "\n").length < 2) ∧
    (2 ≤ (pySplit output "\n").length →
      ∃ d, hugSummary output = .ok d ∧ (dictGet d "parent").isSome = true ∧
        (dictGet d "message").isSome = true) := by
  constructor
  · simp only [hugSummary]
    split
    · rename_i hlt
      simpa using hlt
    · rename_i hge
      constructor
      · intro hcon
        simp at hcon
      · intro hlt
        exact absurd hlt hge
  · intro hge
    simp only [hugSummary]
    rw [if_neg (by omega)]
    refine ⟨_, rfl, ?_, ?_⟩
    · apply dictGet_parseFields_isSome
      rw [dictGet_insert]
      split
      · simp
      · rw [dictGet_insert]
        simp
    · apply dictGet_parseFields_isSome
      rw [dictGet_insert]
      simp

/-- Concrete instance of claim C3: a two-line output parses and carries
both mandatory keys, and a newline-free output is rejected. -/
theorem summary_corrupt_iff_fewer_than_two_lines_witness :
    (∃ d, hugSummary "parent: 41\nmsg" = .ok d ∧
      (dictGet d "parent").isSome = true ∧ (dictGet d "message").isSome = true) ∧
    hugSummary "single line" = .error (.runtimeError MISSING_SUMMARY_FIELDS) :=
  ⟨(summary_corrupt_iff_fewer_than_two_lines "parent: 41\nmsg").2 (by decide),
    (summary_corrupt_iff_fewer_than_two_lines "single line").1.mpr (by decide)⟩

/-- Claim C2 counterexample. The claim says each subsequent non-empty line
is split on the *first* occurrence of `": "` into a key and a value.  The
code instead splits on *every* occurrence and rejoins the tail pieces with
`''.join` (line 247), so a value containing `": "` loses its separators:
for the line `update: a: b` the code stores value `ab`, while the claimed
first-occurrence split would store `a: b`. -/
theorem summary_first_split_cex :
    hugSummary "parent: x\nmsg\nupdate: a: b" =
      .ok [("parent", "x"), ("message", "msg"), ("update", "ab")] ∧
    claimSummary "parent: x\nmsg\nupdate: a: b" =
      .ok [("parent", "x"), ("message", "msg"), ("update", "a: b")] ∧
    hugSummary "parent: x\nmsg\nupdate: a: b" ≠
      claimSummary "parent: x\nmsg\nupdate: a: b" :=
  ⟨by decide, by decide, by decide⟩

theorem parseFields_eq_claimFields (fields : List String)
    (hs : ∀ f ∈ fields, (pySplit f ": ").length ≤ 2) (post : List (String × String)) :
    parseFields fields post = claimFields fields post := by
  induction fields generalizing post with
  | nil => rfl
  | cons f rest ih =>
    have hrest : ∀ g ∈ rest, (pySplit g ": ").length ≤ 2 :=
      fun g hg => hs g (List.mem_cons_of_mem f hg)
    by_cases hf : f = ""
    · subst hf
      simp only [parseFields, claimFields, ne_eq, not_true_eq_false, if_false]
      exact ih hrest post
    · simp only [parseFields, claimFields, if_pos hf]
      rcases hsplit : pySplit f ": " with _ | ⟨k, rest2⟩
      · exact absurd hsplit (pySplit_ne_nil f ": ")
      · rcases rest2 with _ | ⟨v, rest3⟩
        · simp only [hsplit, splitFirst, List.headD, List.drop, joinAll, joinSep]
          exact ih hrest _
        · rcases rest3 with _ | ⟨w, rest4⟩
          · simp only [hsplit, splitFirst, List.headD, List.drop, joinAll, joinSep,
              strAppendEmpty]
            exact ih hrest _
          · have := hs f (List.mem_cons_self f rest)
            rw [hsplit] at this
            simp at this

/-- Claim C2 as amended.  The code builds the dictionary line-by-line as
the claim describes, except that (a) the `parent` value is additionally
trimmed of surrounding whitespace, and (b) a subsequent line is split at
*every* occurrence of `": "` with the tail pieces concatenated and the
separators dropped.  Whenever the first line's remainder carries no
surrounding whitespace and every subsequent line contains at most one
`": "`, the code's result coincides with the claimed first-occurrence
parser `claimSummary`. -/
theorem summary_refines_claim_words (output : String)
    (h1 : pyStrip (pyDrop ((pySplit output "\n").headD "") 8) =
      pyDrop ((pySplit output "\n").headD "") 8)
    (h2 : ∀ f ∈ (pySplit output "\n").drop 2, (pySplit f ": ").length ≤ 2) :
    hugSummary output = claimSummary output := by
  simp only [hugSummary, claimSummary]
  split
  · rfl
  · rw [h1, parseFields_eq_claimFields _ h2]

/-- Concrete instance of the amended claim C2: an output in the shape the
engine documents (`hug.py` docstring, lines 211–229) parses identically
under the code and under the claimed first-occurrence parser. -/
theorem summary_refines_claim_words_witness :
    hugSummary "parent: 41:d16\nChange xml\nbranch: default\ncommit: (clean)" =
      claimSummary "parent: 41:d16\nChange xml\nbranch: default\ncommit: (clean)" :=
  summary_refines_claim_words "parent: 41:d16\nChange xml\nbranch: default\ncommit: (clean)"
    (by decide) (by decide)

/-- Claim C8. `add` is idempotent: a successful `add` of a batch of
pathnames followed by the same `add` again leaves the handle exactly as
after the first call — only files whose status is unknown are staged, and
after the first call none of the batch is unknown any more. -/
theorem add_idempotent (cwd : String) (h h1 : Hug) (ps : List String)
    (hfst : hugAdd cwd h ps = .ok h1) : hugAdd cwd h1 ps = .ok h1 := by
  simp only [hugAdd] at hfst ⊢
  cases hfind : List.find? (fun p => ! startswith p h.repoDir)
      (ps.map (resolveOne cwd h.repoDir)) with
  | some bad =>
    rw [hfind] at hfst
    exact absurd hfst (by simp)
  | none =>
    rw [hfind] at hfst
    have hh1 : h1 = { h with engine := (stageLoop h.repoDir (unknownsOf h.engine)
        (ps.map (resolveOne cwd h.repoDir)) h.engine) } := by
      simpa using hfst.symm
    subst hh1
    simp only [hfind]
    have hsl : stageLoop h.repoDir
        (unknownsOf (stageLoop h.repoDir (unknownsOf h.engine)
          (ps.map (resolveOne cwd h.repoDir)) h.engine))
        (ps.map (resolveOne cwd h.repoDir))
        (stageLoop h.repoDir (unknownsOf h.engine)
          (ps.map (resolveOne cwd h.repoDir)) h.engine) =
        stageLoop h.repoDir (unknownsOf h.engine)
          (ps.map (resolveOne cwd h.repoDir)) h.engine := by
      apply stageLoop_noop
      intro p hp hu
      rw [unknownsOf, List.mem_filter] at hu
      obtain ⟨hpres, hdec⟩ := hu
      have hnotin := of_decide_eq_true hdec
      rw [stageLoop_present] at hpres
      have hnt0 : relToRepo h.repoDir p ∉ h.engine.tracked :=
        fun hc => hnotin (stageLoop_tracked_mono _ _ _ _ _ hc)
      have hu0 : relToRepo h.repoDir p ∈ unknownsOf h.engine := by
        rw [unknownsOf, List.mem_filter]
        exact ⟨hpres, decide_eq_true hnt0⟩
      exact stageLoop_staged _ _ _ _ p hp hu0
    rw [hsl]

/-- Concrete instance of claim C8: after staging the untracked file `f`,
running the same `add` again returns the handle unchanged. -/
theorem add_idempotent_witness :
    hugAdd "/c" ⟨"/r", none, none, ⟨["f"], ["f"], ["f"], [], [], []⟩⟩ ["f"] =
      .ok ⟨"/r", none, none, ⟨["f"], ["f"], ["f"], [], [], []⟩⟩ :=
  add_idempotent "/c" ⟨"/r", none, none, ⟨[], ["f"], [], [], [], []⟩⟩
    ⟨"/r", none, none, ⟨["f"], ["f"], ["f"], [], [], []⟩⟩ ["f"] (by decide)

/-- Claim C9. The repository-root path is fixed at construction: a
successful construction returns exactly `os.path.abspath` of the argument
(an absolute path whenever the working directory is absolute, as
`os.getcwd()` always is), and none of the operations that return an updated
handle — `add`, `commit`, `update`, setting or deleting the username
override — ever changes `repo_dir` (`summary` returns only a dictionary
and touches no handle state at all). -/
theorem repo_dir_absolute_and_immutable :
    (∀ cwd d arg safe r, (hugConstruct cwd d arg safe).result = .ok r →
      r = abspath cwd arg ∧ (isabs cwd = true → isabs r = true)) ∧
    (∀ cwd (h h' : Hug) ps, hugAdd cwd h ps = .ok h' → h'.repoDir = h.repoDir) ∧
    (∀ (h h' : Hug) m dt c, hugCommitOp h m dt = .ok (h', c) → h'.repoDir = h.repoDir) ∧
    (∀ (h h' : Hug) rv wd, hugUpdate h rv wd = .ok h' → h'.repoDir = h.repoDir) ∧
    (∀ (h : Hug) u, (setUsername h u).repoDir = h.repoDir ∧
      (delUsername h).repoDir = h.repoDir) := by
  refine ⟨?_, ?_, ?_, ?_, ?_⟩
  · intro cwd d arg safe r hok
    simp only [hugConstruct] at hok
    split at hok
    · simp at hok
    · split at hok
      · simp at hok
        exact ⟨hok.symm, fun hc => hok ▸ isabs_abspath cwd arg hc⟩
      · split at hok
        · simp at hok
        · simp at hok
          exact ⟨hok.symm, fun hc => hok ▸ isabs_abspath cwd arg hc⟩
  · intro cwd h h' ps hok
    simp only [hugAdd] at hok
    cases hfind : List.find? (fun p => ! startswith p h.repoDir)
        (ps.map (resolveOne cwd h.repoDir)) with
    | some bad =>
      rw [hfind] at hok
      simp at hok
    | none =>
      rw [hfind] at hok
      have : h' = { h with engine := (stageLoop h.repoDir (unknownsOf h.engine)
          (ps.map (resolveOne cwd h.repoDir)) h.engine) } := by
        simpa using hok.symm
      rw [this]
  · intro h h' m dt c hok
    simp only [hugCommitOp] at hok
    split at hok
    · simp at hok
    · simp at hok
      rw [← hok.1]
  · intro h h' rv wd hok
    simp only [hugUpdate] at hok
    split at hok
    · simp at hok
      rw [← hok]
    · simp at hok
  · intro h u
    exact ⟨rfl, rfl⟩

/-- Concrete instances of claim C9: construction returns the absolute
resolution of a relative argument, and each operation leaves a concrete
handle's `repo_dir` untouched. -/
theorem repo_dir_absolute_and_immutable_witness :
    ("/c/q" = abspath "/c" "q" ∧ (isabs "/c" = true → isabs ("/c/q" : String) = true)) ∧
    (⟨"/w", none, none, ⟨["g"], ["g"], ["g"], [], [], []⟩⟩ : Hug).repoDir =
      (⟨"/w", none, none, ⟨[], ["g"], [], [], [], []⟩⟩ : Hug).repoDir ∧
    (⟨"/w", some "u", none, ⟨["g"], ["g"], [], [], [], []⟩⟩ : Hug).repoDir =
      (⟨"/w", some "u", none, ⟨["g"], ["g"], ["g"], [], [], []⟩⟩ : Hug).repoDir ∧
    (⟨"/w", none, none, ⟨["g"], [], [], [], [], []⟩⟩ : Hug).repoDir =
      (⟨"/w", none, none, ⟨["g"], ["g"], [], [], [], []⟩⟩ : Hug).repoDir ∧
    (setUsername ⟨"/w", none, none, ⟨[], [], [], [], [], []⟩⟩ "u").repoDir =
      (⟨"/w", none, none, ⟨[], [], [], [], [], []⟩⟩ : Hug).repoDir ∧
    (delUsername ⟨"/w", none, none, ⟨[], [], [], [], [], []⟩⟩).repoDir =
      (⟨"/w", none, none, ⟨[], [], [], [], [], []⟩⟩ : Hug).repoDir := by
  refine ⟨repo_dir_absolute_and_immutable.1 "/c" ⟨true, true, true, 0⟩ "q" false "/c/q"
      (by decide), ?_, ?_, ?_, ?_, ?_⟩
  · exact repo_dir_absolute_and_immutable.2.1 "/c"
      ⟨"/w", none, none, ⟨[], ["g"], [], [], [], []⟩⟩
      ⟨"/w", none, none, ⟨["g"], ["g"], ["g"], [], [], []⟩⟩ ["g"] (by decide)
  · exact repo_dir_absolute_and_immutable.2.2.1
      ⟨"/w", some "u", none, ⟨["g"], ["g"], ["g"], [], [], []⟩⟩
      ⟨"/w", some "u", none, ⟨["g"], ["g"], [], [], [], []⟩⟩ none none
      ⟨DEFAULT_COMMIT_MESSAGE, "u", none⟩ (by decide)
  · exact repo_dir_absolute_and_immutable.2.2.2.1
      ⟨"/w", none, none, ⟨["g"], ["g"], [], [], [], []⟩⟩
      ⟨"/w", none, none, ⟨["g"], [], [], [], [], []⟩⟩ true [] (by decide)
  · exact (repo_dir_absolute_and_immutable.2.2.2.2
      ⟨"/w", none, none, ⟨[], [], [], [], [], []⟩⟩ "u").1
  · exact (repo_dir_absolute_and_immutable.2.2.2.2
      ⟨"/w", none, none, ⟨[], [], [], [], [], []⟩⟩ "u").2

end MercurialHug
